import Mathlib

/-!
Shallow embedding of the URL-shortener mapping manager from
`Frontend Test Submission/src/services/urlService.ts`.

The persisted collection (localStorage key `url_mappings`) is a
`List UrlMapping`; every operation takes the current store and returns its
result together with the store as persisted afterwards.  Wall-clock time
(`Date.now()` / `new Date()`) is an explicit `now : Int` parameter
(milliseconds); each operation is evaluated at a single logical time.
The platform URL parser (`new URL(url)` inside `isValidUrl`) is a browser
builtin, so it is passed in as an abstract predicate `parse`; the service
throws `Invalid URL provided` exactly when it fails.  `Math.random`-driven
shortcode generation is passed in as the list `gens` of successive candidate
codes produced by `generateShortcode`; the source retries unboundedly on
collision, which the embedding models by returning a distinguished
`generatorExhausted` outcome when the candidate list runs out.
-/

/-- One persisted record, interface `UrlMapping` in `urlService.ts`.
`Date` fields are millisecond timestamps. -/
structure UrlMapping where
  shortcode : String
  originalUrl : String
  expiresAt : Int
  createdAt : Int
  accessCount : Nat
deriving Repr, DecidableEq

/-- Interface `ShortenUrlRequest`: `customShortcode` and `validityMinutes`
are optional fields. -/
structure ShortenUrlRequest where
  originalUrl : String
  customShortcode : Option String
  validityMinutes : Option Int
deriving Repr, DecidableEq

/-- Interface `ShortenUrlResponse`, the value returned by `shortenUrl`. -/
structure ShortenUrlResponse where
  shortUrl : String
  shortcode : String
  originalUrl : String
  expiresAt : Int
  createdAt : Int
deriving Repr, DecidableEq

/-- The three `throw new Error(...)` outcomes of `shortenUrl`, plus
`generatorExhausted` standing for the unbounded regeneration loop never
finding a fresh code (it never occurs when a fresh candidate exists). -/
inductive UrlError where
  | invalidUrl
  | invalidCodeFormat
  | codeTaken
  | generatorExhausted
deriving Repr, DecidableEq

deriving instance DecidableEq for Except

/-- `isValidShortcode`: the regex test `^[a-zA-Z0-9]\x7b3,10\x7d$`. -/
def isValidShortcode (shortcode : String) : Bool :=
  decide (3 ≤ shortcode.length) && decide (shortcode.length ≤ 10) &&
    shortcode.toList.all (fun c =>
      (decide ('a' ≤ c) && decide (c ≤ 'z')) ||
      (decide ('A' ≤ c) && decide (c ≤ 'Z')) ||
      (decide ('0' ≤ c) && decide (c ≤ '9')))

/-- `cleanExpiredMappings`: keep the records with
`new Date(mapping.expiresAt) > now`; when anything was dropped the filtered
collection is saved, so the store afterwards always equals this filter. -/
def cleanExpiredMappings (now : Int) (mappings : List UrlMapping) : List UrlMapping :=
  mappings.filter (fun m => now < m.expiresAt)

/-- JavaScript truthiness of the optional `request.customShortcode` in
`let shortcode = request.customShortcode; if (shortcode) ...`: an absent or
empty string is falsy, so it falls to the generated-code branch. -/
def jsTruthy : Option String → Option String
  | none => none
  | some s => if s = "" then none else some s

/-- `request.validityMinutes || 30`: JavaScript `||` replaces an absent value
and the falsy value `0` with the default 30. -/
def validityOrDefault : Option Int → Int
  | none => 30
  | some v => if v = 0 then 30 else v

/-- The generation-retry loop of `shortenUrl`
(`shortcode = generateShortcode(); while (collision) regenerate`): take the
first candidate from the `generateShortcode` stream whose code is not among
the stored mappings. -/
def pickFresh (mappings : List UrlMapping) : List String → Option String
  | [] => none
  | c :: rest =>
      if mappings.any (fun m => m.shortcode == c) then pickFresh mappings rest
      else some c

/-- `mapping.accessCount++` on the record `find` located: bump the first
record with the given shortcode, leave everything else untouched. -/
def incrementAccess (shortcode : String) : List UrlMapping → List UrlMapping
  | [] => []
  | m :: rest =>
      if m.shortcode == shortcode then
        { m with accessCount := m.accessCount + 1 } :: rest
      else m :: incrementAccess shortcode rest

/-- Tail of `shortenUrl` once a shortcode has been settled: compute
`expiresAt = Date.now() + validityMinutes * 60 * 1000`, append the new
record, persist, and build the response with `BASE_URL + "/" + shortcode`. -/
def finishCreate (baseUrl : String) (now : Int) (request : ShortenUrlRequest)
    (shortcode : String) (mappings : List UrlMapping) :
    Except UrlError ShortenUrlResponse × List UrlMapping :=
  (Except.ok
    { shortUrl := baseUrl ++ "/" ++ shortcode, shortcode := shortcode,
      originalUrl := request.originalUrl,
      expiresAt := now + validityOrDefault request.validityMinutes * 60000,
      createdAt := now },
   mappings ++
    [{ shortcode := shortcode, originalUrl := request.originalUrl,
       expiresAt := now + validityOrDefault request.validityMinutes * 60000,
       createdAt := now, accessCount := 0 }])

/-- `UrlService.shortenUrl`.  `parse` models the platform URL parser inside
`isValidUrl`; `gens` is the stream of `generateShortcode` outputs; `baseUrl`
is `window.location.origin`.  Note the URL check precedes the sweep, so on
`invalidUrl` the store is untouched, while the two shortcode errors leave
the swept store persisted. -/
def shortenUrl (parse : String → Bool) (gens : List String) (baseUrl : String)
    (now : Int) (request : ShortenUrlRequest) (store : List UrlMapping) :
    Except UrlError ShortenUrlResponse × List UrlMapping :=
  if !(parse request.originalUrl) then (Except.error UrlError.invalidUrl, store)
  else
    match jsTruthy request.customShortcode with
    | some c =>
        if !(isValidShortcode c) then
          (Except.error UrlError.invalidCodeFormat, cleanExpiredMappings now store)
        else if (cleanExpiredMappings now store).any (fun m => m.shortcode == c) then
          (Except.error UrlError.codeTaken, cleanExpiredMappings now store)
        else finishCreate baseUrl now request c (cleanExpiredMappings now store)
    | none =>
        match pickFresh (cleanExpiredMappings now store) gens with
        | none =>
            (Except.error UrlError.generatorExhausted, cleanExpiredMappings now store)
        | some c => finishCreate baseUrl now request c (cleanExpiredMappings now store)

/-- `UrlService.resolveShortcode`: sweep, look up by exact code, return the
unified miss `none` when absent or expired, otherwise bump `accessCount`,
persist and return the original URL. -/
def resolveShortcode (now : Int) (shortcode : String) (store : List UrlMapping) :
    Option String × List UrlMapping :=
  match (cleanExpiredMappings now store).find? (fun m => m.shortcode == shortcode) with
  | none => (none, cleanExpiredMappings now store)
  | some mapping =>
      if mapping.expiresAt ≤ now then (none, cleanExpiredMappings now store)
      else (some mapping.originalUrl,
            incrementAccess shortcode (cleanExpiredMappings now store))

/-- `UrlService.getAllMappings`: sweep, then return the remaining records in
storage order. -/
def getAllMappings (now : Int) (store : List UrlMapping) :
    List UrlMapping × List UrlMapping :=
  (cleanExpiredMappings now store, cleanExpiredMappings now store)

/-- `UrlService.deleteMappingByShortcode`: no sweep; drop every record with
the code, report whether the length shrank, and persist only then. -/
def deleteMappingByShortcode (shortcode : String) (store : List UrlMapping) :
    Bool × List UrlMapping :=
  if (store.filter (fun m => !(m.shortcode == shortcode))).length == store.length then
    (false, store)
  else (true, store.filter (fun m => !(m.shortcode == shortcode)))

example :
    (shortenUrl (fun _ => true) ["abc123"] "http://h" 0
      { originalUrl := "https://example.com", customShortcode := none,
        validityMinutes := some 30 } []).2 =
    [{ shortcode := "abc123", originalUrl := "https://example.com",
       expiresAt := 1800000, createdAt := 0, accessCount := 0 }] := by
  decide

/-! ### Helper lemmas -/

theorem clean_idem (now : Int) (l : List UrlMapping) :
    cleanExpiredMappings now (cleanExpiredMappings now l) = cleanExpiredMappings now l := by
  simp [cleanExpiredMappings, List.filter_filter]

theorem mem_of_mem_clean (now : Int) (l : List UrlMapping) (m : UrlMapping)
    (h : m ∈ cleanExpiredMappings now l) : m ∈ l :=
  (List.mem_filter.mp h).1

theorem live_of_mem_clean (now : Int) (l : List UrlMapping) (m : UrlMapping)
    (h : m ∈ cleanExpiredMappings now l) : now < m.expiresAt := by
  have := (List.mem_filter.mp h).2
  simpa using this

theorem pickFresh_not_taken (mappings : List UrlMapping) (gens : List String)
    (c : String) (h : pickFresh mappings gens = some c) :
    mappings.any (fun m => m.shortcode == c) = false := by
  induction gens with
  | nil => simp [pickFresh] at h
  | cons g rest ih =>
      rw [pickFresh] at h
      split at h
      · exact ih h
      · rename_i hg
        cases h
        exact Bool.eq_false_iff.mpr hg

theorem isValidShortcode_ne_empty (c : String) (h : isValidShortcode c = true) :
    c ≠ "" := by
  intro he
  rw [he] at h
  exact absurd h (by decide)

theorem find?_decomp {α : Type} (p : α → Bool) (l : List α) (m : α)
    (h : l.find? p = some m) :
    ∃ before after, l = before ++ m :: after ∧
      (∀ x ∈ before, p x = false) ∧ p m = true := by
  induction l with
  | nil => simp at h
  | cons a l ih =>
      by_cases hpa : p a = true
      · rw [List.find?_cons_of_pos _ hpa] at h
        have hma : m = a := (Option.some.inj h).symm
        subst hma
        exact ⟨[], l, by simp, by simp, hpa⟩
      · rw [List.find?_cons_of_neg _ hpa] at h
        obtain ⟨b, af, he, hb, hm⟩ := ih h
        refine ⟨a :: b, af, by simp [he], ?_, hm⟩
        intro x hx
        rcases List.mem_cons.mp hx with h1 | h2
        · subst h1; exact Bool.eq_false_iff.mpr hpa
        · exact hb x h2

theorem incrementAccess_append (code : String) (before : List UrlMapping)
    (m : UrlMapping) (after : List UrlMapping)
    (hb : ∀ x ∈ before, (x.shortcode == code) = false)
    (hm : (m.shortcode == code) = true) :
    incrementAccess code (before ++ m :: after) =
      before ++ { m with accessCount := m.accessCount + 1 } :: after := by
  induction before with
  | nil => simp [incrementAccess, hm]
  | cons a b ih =>
      have ha : (a.shortcode == code) = false := hb a (by simp)
      have ih2 := ih (fun x hx => hb x (by simp [hx]))
      simp [incrementAccess, ha, ih2]

theorem incrementAccess_map_shortcode (code : String) (l : List UrlMapping) :
    (incrementAccess code l).map UrlMapping.shortcode =
      l.map UrlMapping.shortcode := by
  induction l with
  | nil => rfl
  | cons a rest ih =>
      by_cases h : (a.shortcode == code) = true
      · simp [incrementAccess, h]
      · simp [incrementAccess, h, ih]

/-- Spec sentence `Mappings are immutable except for accessCount, which only
increases`, as a relation between an input record and what it became. -/
def preservesRecord (m m' : UrlMapping) : Prop :=
  m'.shortcode = m.shortcode ∧ m'.originalUrl = m.originalUrl ∧
  m'.createdAt = m.createdAt ∧ m'.expiresAt = m.expiresAt ∧
  m.accessCount ≤ m'.accessCount

/-- Every record of the output store either survives from the input store
with at most a larger `accessCount`, or is freshly created with count 0. -/
def accessCountMono (s s' : List UrlMapping) : Prop :=
  ∀ m' ∈ s', m'.accessCount = 0 ∨ ∃ mm ∈ s, preservesRecord mm m'

theorem preservesRecord_refl (m : UrlMapping) : preservesRecord m m :=
  ⟨rfl, rfl, rfl, rfl, Nat.le_refl _⟩

theorem incrementAccess_preserves (code : String) (l : List UrlMapping) :
    ∀ m' ∈ incrementAccess code l, ∃ mm ∈ l, preservesRecord mm m' := by
  induction l with
  | nil => simp [incrementAccess]
  | cons a rest ih =>
      intro m' hm'
      by_cases h : (a.shortcode == code) = true
      · rw [show incrementAccess code (a :: rest) =
            { a with accessCount := a.accessCount + 1 } :: rest from by
              simp [incrementAccess, h]] at hm'
        rcases List.mem_cons.mp hm' with h1 | h2
        · exact ⟨a, by simp, by
            subst h1
            exact ⟨rfl, rfl, rfl, rfl, Nat.le_succ _⟩⟩
        · exact ⟨m', by simp [h2], preservesRecord_refl m'⟩
      · rw [show incrementAccess code (a :: rest) =
            a :: incrementAccess code rest from by simp [incrementAccess, h]] at hm'
        rcases List.mem_cons.mp hm' with h1 | h2
        · exact ⟨a, by simp, h1 ▸ preservesRecord_refl a⟩
        · obtain ⟨mm, hmm, hp⟩ := ih m' h2
          exact ⟨mm, by simp [hmm], hp⟩

theorem clean_append_live (now : Int) (l : List UrlMapping) (newM : UrlMapping)
    (hidem : cleanExpiredMappings now l = l)
    (hlive : now < newM.expiresAt) :
    cleanExpiredMappings now (l ++ [newM]) = l ++ [newM] := by
  have hsplit : cleanExpiredMappings now (l ++ [newM]) =
      cleanExpiredMappings now l ++ cleanExpiredMappings now [newM] := by
    simp [cleanExpiredMappings]
  rw [hsplit, hidem]
  simp [cleanExpiredMappings, hlive]

theorem resolve_of_fresh_live (now : Int) (l : List UrlMapping) (newM : UrlMapping)
    (hidem : cleanExpiredMappings now l = l)
    (hfresh : l.any (fun m => m.shortcode == newM.shortcode) = false)
    (hlive : now < newM.expiresAt) :
    resolveShortcode now newM.shortcode (l ++ [newM]) =
      (some newM.originalUrl, l ++ [{ newM with accessCount := newM.accessCount + 1 }]) := by
  have hclean : cleanExpiredMappings now (l ++ [newM]) = l ++ [newM] :=
    clean_append_live now l newM hidem hlive
  have hnone : l.find? (fun m => m.shortcode == newM.shortcode) = none := by
    rw [List.find?_eq_none]
    intro x hx hcontra
    exact List.any_eq_false.mp hfresh x hx hcontra
  have hfind : (l ++ [newM]).find? (fun m => m.shortcode == newM.shortcode) =
      some newM := by
    rw [List.find?_append, hnone]
    simp [List.find?]
  have hred : resolveShortcode now newM.shortcode (l ++ [newM]) =
      if newM.expiresAt ≤ now then (none, l ++ [newM])
      else (some newM.originalUrl, incrementAccess newM.shortcode (l ++ [newM])) := by
    rw [resolveShortcode, hclean, hfind]
  rw [hred, if_neg (Int.not_le.mpr hlive)]
  have hinc := incrementAccess_append newM.shortcode l newM []
    (fun x hx => Bool.eq_false_iff.mpr (List.any_eq_false.mp hfresh x hx)) (by simp)
  rw [hinc]

theorem create_generated_spec (parse : String → Bool) (gens : List String)
    (baseUrl : String) (now : Int) (u : String) (vOpt : Option Int)
    (store : List UrlMapping) (resp : ShortenUrlResponse) (store' : List UrlMapping)
    (h : shortenUrl parse gens baseUrl now
      { originalUrl := u, customShortcode := none, validityMinutes := vOpt } store
      = (Except.ok resp, store')) :
    ∃ c, pickFresh (cleanExpiredMappings now store) gens = some c ∧
      resp = { shortUrl := baseUrl ++ "/" ++ c, shortcode := c, originalUrl := u,
               expiresAt := now + validityOrDefault vOpt * 60000, createdAt := now } ∧
      store' = cleanExpiredMappings now store ++
        [{ shortcode := c, originalUrl := u,
           expiresAt := now + validityOrDefault vOpt * 60000,
           createdAt := now, accessCount := 0 }] := by
  rw [shortenUrl] at h
  by_cases hp : parse u = true
  · simp only [hp, Bool.not_true, jsTruthy] at h
    rw [if_neg (by simp)] at h
    cases hpick : pickFresh (cleanExpiredMappings now store) gens with
    | none => rw [hpick] at h; simp at h
    | some c =>
        rw [hpick] at h
        simp only [finishCreate, Prod.mk.injEq, Except.ok.injEq] at h
        exact ⟨c, rfl, h.1.symm, h.2.symm⟩
  · rw [Bool.not_eq_true] at hp
    simp [hp] at h

theorem create_ok_resolves (parse : String → Bool) (gens : List String)
    (baseUrl : String) (now : Int) (u : String) (vOpt : Option Int)
    (store : List UrlMapping) (resp : ShortenUrlResponse) (store' : List UrlMapping)
    (hpos : 0 < validityOrDefault vOpt)
    (h : shortenUrl parse gens baseUrl now
      { originalUrl := u, customShortcode := none, validityMinutes := vOpt } store
      = (Except.ok resp, store')) :
    (resolveShortcode now resp.shortcode store').1 = some u ∧
    ∃ m ∈ (getAllMappings now store').1, m.shortcode = resp.shortcode ∧
      m.originalUrl = u := by
  obtain ⟨c, hpick, hresp, hstore⟩ := create_generated_spec _ _ _ _ _ _ _ _ _ h
  subst hresp hstore
  have hlive : now < now + validityOrDefault vOpt * 60000 := by
    have : 0 < validityOrDefault vOpt * 60000 := by positivity
    omega
  have hfresh := pickFresh_not_taken _ _ _ hpick
  have hres := resolve_of_fresh_live now (cleanExpiredMappings now store)
    { shortcode := c, originalUrl := u,
      expiresAt := now + validityOrDefault vOpt * 60000,
      createdAt := now, accessCount := 0 }
    (clean_idem now store) hfresh hlive
  have hclean := clean_append_live now (cleanExpiredMappings now store)
    { shortcode := c, originalUrl := u,
      expiresAt := now + validityOrDefault vOpt * 60000,
      createdAt := now, accessCount := 0 }
    (clean_idem now store) hlive
  dsimp only at hres hclean ⊢
  constructor
  · rw [hres]
  · refine ⟨{ shortcode := c, originalUrl := u,
               expiresAt := now + validityOrDefault vOpt * 60000,
               createdAt := now, accessCount := 0 }, ?_, rfl, rfl⟩
    rw [getAllMappings]
    dsimp only
    rw [hclean]
    simp

/-! ### Claim theorems -/

/-- C1: for every string `u` accepted by the URL parser and every validity
`v > 0`, creating a mapping with no custom code and validity `v` and then
immediately resolving the returned shortcode yields `u`. -/
theorem create_then_resolve_roundtrip (parse : String → Bool) (gens : List String)
    (baseUrl : String) (now : Int) (u : String) (v : Int) (store : List UrlMapping)
    (resp : ShortenUrlResponse) (store' : List UrlMapping)
    (hv : 0 < v)
    (h : shortenUrl parse gens baseUrl now
      { originalUrl := u, customShortcode := none, validityMinutes := some v } store
      = (Except.ok resp, store')) :
    (resolveShortcode now resp.shortcode store').1 = some u := by
  have hpos : 0 < validityOrDefault (some v) := by
    rw [validityOrDefault, if_neg (by omega)]
    exact hv
  exact (create_ok_resolves parse gens baseUrl now u (some v) store resp store'
    hpos h).1

theorem create_then_resolve_roundtrip_witness :
    (resolveShortcode 0 "abc123"
      [{ shortcode := "abc123", originalUrl := "https://example.com",
         expiresAt := 1800000, createdAt := 0, accessCount := 0 }]).1
      = some "https://example.com" :=
  create_then_resolve_roundtrip (fun _ => true) ["abc123"] "http://h" 0
    "https://example.com" 30 []
    { shortUrl := "http://h/abc123", shortcode := "abc123",
      originalUrl := "https://example.com", expiresAt := 1800000, createdAt := 0 }
    [{ shortcode := "abc123", originalUrl := "https://example.com",
       expiresAt := 1800000, createdAt := 0, accessCount := 0 }]
    (by decide) (by rfl)

/-- C7: the expiration sweep is idempotent, so calling `list` twice in
immediate succession returns the same sequence of mappings and leaves the
same store. -/
theorem list_twice_idempotent (now : Int) (store : List UrlMapping) :
    getAllMappings now (getAllMappings now store).2 = getAllMappings now store := by
  simp [getAllMappings, clean_idem]

/-- C8: delete removes exactly the records whose shortcode matches,
regardless of expiration state, returns true exactly when something was
removed, and leaves the store unchanged when nothing matches. -/
theorem delete_semantics (shortcode : String) (store : List UrlMapping) :
    ((deleteMappingByShortcode shortcode store).1 =
        store.any (fun m => m.shortcode == shortcode)) ∧
    (deleteMappingByShortcode shortcode store).2 =
        store.filter (fun m => !(m.shortcode == shortcode)) ∧
    (store.any (fun m => m.shortcode == shortcode) = false →
        (deleteMappingByShortcode shortcode store).2 = store) := by
  have hiff : ((store.filter (fun m => !(m.shortcode == shortcode))).length
      = store.length) ↔ (store.any (fun m => m.shortcode == shortcode) = false) := by
    rw [List.filter_length_eq_length, List.any_eq_false]
    constructor
    · intro hall x hx
      have := hall x hx
      simp at this
      simp [this]
    · intro hall x hx
      have := hall x hx
      simpa using this
  rw [deleteMappingByShortcode]
  by_cases hlen : (store.filter (fun m => !(m.shortcode == shortcode))).length
      = store.length
  · rw [if_pos (by simpa using hlen)]
    have hany := hiff.mp hlen
    refine ⟨by simp [hany], ?_, fun _ => rfl⟩
    have : store.filter (fun m => !(m.shortcode == shortcode)) = store := by
      rw [List.filter_eq_self]
      intro a ha
      have := List.any_eq_false.mp hany a ha
      simpa using this
    exact this.symm
  · rw [if_neg (by simpa using hlen)]
    have hany : store.any (fun m => m.shortcode == shortcode) = true := by
      cases hb : store.any (fun m => m.shortcode == shortcode) with
      | false => exact absurd (hiff.mpr hb) hlen
      | true => rfl
    refine ⟨by simp [hany], rfl, ?_⟩
    intro hc
    rw [hc] at hany
    cases hany

/-- C5: create fails with `InvalidUrlError` exactly when the platform URL
parser rejects the input, whatever that parser accepts; in particular with a
parser that accepts a `javascript:` URL, create succeeds on it — there is no
scheme allow-list in the code. -/
theorem create_invalid_url_iff (parse : String → Bool) (gens : List String)
    (baseUrl : String) (now : Int) (request : ShortenUrlRequest)
    (store : List UrlMapping) :
    ((shortenUrl parse gens baseUrl now request store).1 =
        Except.error UrlError.invalidUrl ↔ parse request.originalUrl = false) ∧
    (shortenUrl (fun _ => true) ["abc123"] "http://h" 0
      { originalUrl := "javascript:alert(1)", customShortcode := none,
        validityMinutes := none } []).1 =
      Except.ok
        { shortUrl := "http://h/abc123", shortcode := "abc123",
          originalUrl := "javascript:alert(1)", expiresAt := 1800000,
          createdAt := 0 } := by
  constructor
  · rw [shortenUrl]
    cases hp : parse request.originalUrl with
    | false => simp
    | true =>
        rw [if_neg (by simp)]
        simp only [Bool.true_eq_false, iff_false]
        intro hcontra
        split at hcontra
        · split at hcontra
          · simp at hcontra
          · split at hcontra
            · simp at hcontra
            · simp [finishCreate] at hcontra
        · split at hcontra
          · simp at hcontra
          · simp [finishCreate] at hcontra
  · decide

/-- C10: under a single logical current time, any record the lookup in
resolve finds after the sweep is still live, so the explicit expired-record
check is unreachable and resolve returns the hit. -/
theorem resolve_expired_branch_unreachable (now : Int) (code : String)
    (store : List UrlMapping) (m : UrlMapping)
    (h : (cleanExpiredMappings now store).find? (fun x => x.shortcode == code)
      = some m) :
    now < m.expiresAt ∧ (resolveShortcode now code store).1 = some m.originalUrl := by
  have hmem := List.mem_of_find?_eq_some h
  have hlive := live_of_mem_clean now store m hmem
  refine ⟨hlive, ?_⟩
  have hred : resolveShortcode now code store =
      if m.expiresAt ≤ now then (none, cleanExpiredMappings now store)
      else (some m.originalUrl, incrementAccess code (cleanExpiredMappings now store)) := by
    rw [resolveShortcode, h]
  rw [hred, if_neg (Int.not_le.mpr hlive)]

theorem resolve_expired_branch_unreachable_witness :
    ((0 : Int) < 10) ∧ (resolveShortcode 0 "abc"
      [{ shortcode := "abc", originalUrl := "https://e.com", expiresAt := 10,
         createdAt := 0, accessCount := 0 }]).1 = some "https://e.com" :=
  resolve_expired_branch_unreachable 0 "abc"
    [{ shortcode := "abc", originalUrl := "https://e.com", expiresAt := 10,
       createdAt := 0, accessCount := 0 }]
    { shortcode := "abc", originalUrl := "https://e.com", expiresAt := 10,
      createdAt := 0, accessCount := 0 }
    (by decide)

/-- C2 counterexample: a mapping created with `validityMinutes = 0` at time 0
is NOT expired — JavaScript `||` replaces the falsy 0 with the default 30, so
`expiresAt = 1800000` rather than `0`; immediately resolving the shortcode
returns the URL instead of the miss signal, and `list` still contains it. -/
theorem validity_zero_counterexample :
    (shortenUrl (fun _ => true) ["abc123"] "http://h" 0
      { originalUrl := "https://e.com", customShortcode := none,
        validityMinutes := some 0 } []).1 =
      Except.ok
        { shortUrl := "http://h/abc123", shortcode := "abc123",
          originalUrl := "https://e.com", expiresAt := 1800000,
          createdAt := 0 } ∧
    (resolveShortcode 0 "abc123"
      (shortenUrl (fun _ => true) ["abc123"] "http://h" 0
        { originalUrl := "https://e.com", customShortcode := none,
          validityMinutes := some 0 } []).2).1 = some "https://e.com" ∧
    (getAllMappings 0
      (shortenUrl (fun _ => true) ["abc123"] "http://h" 0
        { originalUrl := "https://e.com", customShortcode := none,
          validityMinutes := some 0 } []).2).1 =
      [{ shortcode := "abc123", originalUrl := "https://e.com",
         expiresAt := 1800000, createdAt := 0, accessCount := 0 }] := by
  refine ⟨rfl, rfl, rfl⟩

/-- C2 (amended): create computes
`expiresAt = now + (validityMinutes || 30) * 60000`, where the JavaScript
`||` replaces an absent or zero validity with the default 30; a mapping
created with `validityMinutes = 0` therefore receives the default 30-minute
lifetime and is live: immediately resolving its shortcode yields the URL and
`list` still contains it. -/
theorem expiry_uses_js_default (parse : String → Bool) (gens : List String)
    (baseUrl : String) (now : Int) (u : String) (vOpt : Option Int)
    (store : List UrlMapping) (resp : ShortenUrlResponse)
    (store' : List UrlMapping)
    (h : shortenUrl parse gens baseUrl now
      { originalUrl := u, customShortcode := none, validityMinutes := vOpt } store
      = (Except.ok resp, store')) :
    resp.expiresAt = now + validityOrDefault vOpt * 60000 ∧
    (vOpt = some 0 →
      (resolveShortcode now resp.shortcode store').1 = some u ∧
      ∃ m ∈ (getAllMappings now store').1, m.shortcode = resp.shortcode ∧
        m.originalUrl = u) := by
  constructor
  · obtain ⟨c, hpick, hresp, hstore⟩ := create_generated_spec _ _ _ _ _ _ _ _ _ h
    rw [hresp]
  · intro hv0
    have hpos : 0 < validityOrDefault vOpt := by
      subst hv0
      rw [validityOrDefault]
      simp
    exact create_ok_resolves parse gens baseUrl now u vOpt store resp store' hpos h

theorem expiry_uses_js_default_witness :
    ((1800000 : Int) = 0 + validityOrDefault (some 0) * 60000) ∧
    (some 0 = some (0 : Int) →
      (resolveShortcode 0 "abc123"
        [{ shortcode := "abc123", originalUrl := "https://e.com",
           expiresAt := 1800000, createdAt := 0, accessCount := 0 }]).1
        = some "https://e.com" ∧
      ∃ m ∈ (getAllMappings 0
        [{ shortcode := "abc123", originalUrl := "https://e.com",
           expiresAt := 1800000, createdAt := 0, accessCount := 0 }]).1,
        m.shortcode = "abc123" ∧ m.originalUrl = "https://e.com") :=
  expiry_uses_js_default (fun _ => true) ["abc123"] "http://h" 0
    "https://e.com" (some 0) []
    { shortUrl := "http://h/abc123", shortcode := "abc123",
      originalUrl := "https://e.com", expiresAt := 1800000, createdAt := 0 }
    [{ shortcode := "abc123", originalUrl := "https://e.com",
       expiresAt := 1800000, createdAt := 0, accessCount := 0 }]
    (by rfl)

/-- C3: for a parseable URL, a custom code matching the 3-10 alphanumeric
format that no live mapping holds, and a positive effective validity, create
succeeds and returns that code verbatim; an immediate second create with the
same code fails with `CodeTakenError`. -/
theorem custom_code_claim_then_taken (parse : String → Bool)
    (gens gens2 : List String) (baseUrl : String) (now : Int)
    (u u2 c : String) (vOpt vOpt2 : Option Int) (store : List UrlMapping)
    (hu : parse u = true) (hu2 : parse u2 = true)
    (hc : isValidShortcode c = true)
    (hfree : (cleanExpiredMappings now store).any
      (fun m => m.shortcode == c) = false)
    (hpos : 0 < validityOrDefault vOpt) :
    ∃ resp store',
      shortenUrl parse gens baseUrl now
        { originalUrl := u, customShortcode := some c, validityMinutes := vOpt }
        store = (Except.ok resp, store') ∧
      resp.shortcode = c ∧
      (shortenUrl parse gens2 baseUrl now
        { originalUrl := u2, customShortcode := some c,
          validityMinutes := vOpt2 } store').1 = Except.error UrlError.codeTaken := by
  have hjs : jsTruthy (some c) = some c := by
    rw [jsTruthy, if_neg (isValidShortcode_ne_empty c hc)]
  have h1 : shortenUrl parse gens baseUrl now
      { originalUrl := u, customShortcode := some c, validityMinutes := vOpt }
      store =
      (Except.ok
        { shortUrl := baseUrl ++ "/" ++ c, shortcode := c, originalUrl := u,
          expiresAt := now + validityOrDefault vOpt * 60000, createdAt := now },
       cleanExpiredMappings now store ++
        [{ shortcode := c, originalUrl := u,
           expiresAt := now + validityOrDefault vOpt * 60000,
           createdAt := now, accessCount := 0 }]) := by
    simp [shortenUrl, hu, hjs, hc, hfree, finishCreate]
  have hlive : now < now + validityOrDefault vOpt * 60000 := by
    have : 0 < validityOrDefault vOpt * 60000 := by positivity
    omega
  have hclean2 := clean_append_live now (cleanExpiredMappings now store)
    { shortcode := c, originalUrl := u,
      expiresAt := now + validityOrDefault vOpt * 60000,
      createdAt := now, accessCount := 0 }
    (clean_idem now store) hlive
  have hany : (cleanExpiredMappings now
      (cleanExpiredMappings now store ++
        [{ shortcode := c, originalUrl := u,
           expiresAt := now + validityOrDefault vOpt * 60000,
           createdAt := now, accessCount := 0 }])).any
      (fun m => m.shortcode == c) = true := by
    rw [hclean2]
    simp
  refine ⟨_, _, h1, rfl, ?_⟩
  simp [shortenUrl, hu2, hjs, hc, hany]

theorem custom_code_claim_then_taken_witness :
    ∃ resp store',
      shortenUrl (fun _ => true) [] "http://h" 0
        { originalUrl := "https://e.com", customShortcode := some "mycode",
          validityMinutes := some 30 } [] = (Except.ok resp, store') ∧
      resp.shortcode = "mycode" ∧
      (shortenUrl (fun _ => true) [] "http://h" 0
        { originalUrl := "https://e.com", customShortcode := some "mycode",
          validityMinutes := some 5 } store').1 =
        Except.error UrlError.codeTaken :=
  custom_code_claim_then_taken (fun _ => true) [] [] "http://h" 0
    "https://e.com" "https://e.com" "mycode" (some 30) (some 5) []
    rfl rfl (by decide) (by decide) (by decide)

/-- C4 counterexample: the empty string is a custom code that does not match
`^[A-Za-z0-9]\x7b3,10\x7d$`, yet `create(u, "")` does not fail with
`InvalidCodeFormatError` — JavaScript `if (shortcode)` treats `""` as
falsy, so the service silently falls back to a generated code and
succeeds, persisting a new record. -/
theorem empty_custom_code_counterexample :
    isValidShortcode "" = false ∧
    (shortenUrl (fun _ => true) ["abc123"] "http://h" 0
      { originalUrl := "https://e.com", customShortcode := some "",
        validityMinutes := some 30 } []).1 =
      Except.ok
        { shortUrl := "http://h/abc123", shortcode := "abc123",
          originalUrl := "https://e.com", expiresAt := 1800000,
          createdAt := 0 } ∧
    (shortenUrl (fun _ => true) ["abc123"] "http://h" 0
      { originalUrl := "https://e.com", customShortcode := some "",
        validityMinutes := some 30 } []).2 =
      [{ shortcode := "abc123", originalUrl := "https://e.com",
         expiresAt := 1800000, createdAt := 0, accessCount := 0 }] := by
  refine ⟨rfl, rfl, rfl⟩

/-- C4 (amended): for every parseable URL and every NONEMPTY custom code not
matching `^[A-Za-z0-9]\x7b3,10\x7d$`, create fails with
`InvalidCodeFormatError` and the persisted collection gains no new record
(every persisted record was already in the store); the empty custom code is
instead treated as absent and a generated code is used. -/
theorem invalid_custom_code_rejected (parse : String → Bool) (gens : List String)
    (baseUrl : String) (now : Int) (u c : String) (vOpt : Option Int)
    (store : List UrlMapping)
    (hu : parse u = true) (hne : c ≠ "") (hbad : isValidShortcode c = false) :
    (shortenUrl parse gens baseUrl now
      { originalUrl := u, customShortcode := some c, validityMinutes := vOpt }
      store).1 = Except.error UrlError.invalidCodeFormat ∧
    ∀ m ∈ (shortenUrl parse gens baseUrl now
      { originalUrl := u, customShortcode := some c, validityMinutes := vOpt }
      store).2, m ∈ store := by
  have hjs : jsTruthy (some c) = some c := by rw [jsTruthy, if_neg hne]
  have hres : shortenUrl parse gens baseUrl now
      { originalUrl := u, customShortcode := some c, validityMinutes := vOpt }
      store =
      (Except.error UrlError.invalidCodeFormat, cleanExpiredMappings now store) := by
    simp [shortenUrl, hu, hjs, hbad]
  rw [hres]
  exact ⟨rfl, fun m hm => mem_of_mem_clean now store m hm⟩

theorem invalid_custom_code_rejected_witness :
    (shortenUrl (fun _ => true) ["abc123"] "http://h" 0
      { originalUrl := "https://e.com", customShortcode := some "ab!",
        validityMinutes := some 30 }
      [{ shortcode := "zzz999", originalUrl := "https://old.com",
         expiresAt := 99, createdAt := 0, accessCount := 2 }]).1 =
      Except.error UrlError.invalidCodeFormat ∧
    ∀ m ∈ (shortenUrl (fun _ => true) ["abc123"] "http://h" 0
      { originalUrl := "https://e.com", customShortcode := some "ab!",
        validityMinutes := some 30 }
      [{ shortcode := "zzz999", originalUrl := "https://old.com",
         expiresAt := 99, createdAt := 0, accessCount := 2 }]).2,
      m ∈ [{ shortcode := "zzz999", originalUrl := "https://old.com",
             expiresAt := 99, createdAt := 0, accessCount := 2 }] :=
  invalid_custom_code_rejected (fun _ => true) ["abc123"] "http://h" 0
    "https://e.com" "ab!" (some 30)
    [{ shortcode := "zzz999", originalUrl := "https://old.com",
       expiresAt := 99, createdAt := 0, accessCount := 2 }]
    rfl (by decide) (by decide)

/-- States of the persisted collection reachable from the empty store by any
sequence of the four manager operations, each run at an arbitrary time. -/
inductive Reachable : List UrlMapping → Prop where
  | empty : Reachable []
  | create (parse : String → Bool) (gens : List String) (baseUrl : String)
      (now : Int) (request : ShortenUrlRequest) (store : List UrlMapping) :
      Reachable store →
      Reachable (shortenUrl parse gens baseUrl now request store).2
  | resolve (now : Int) (code : String) (store : List UrlMapping) :
      Reachable store → Reachable (resolveShortcode now code store).2
  | listAll (now : Int) (store : List UrlMapping) :
      Reachable store → Reachable (getAllMappings now store).2
  | remove (code : String) (store : List UrlMapping) :
      Reachable store → Reachable (deleteMappingByShortcode code store).2

/-- The stored shortcodes are pairwise distinct. -/
def codesNodup (s : List UrlMapping) : Prop :=
  (s.map UrlMapping.shortcode).Nodup

theorem codesNodup_clean (now : Int) (l : List UrlMapping) (h : codesNodup l) :
    codesNodup (cleanExpiredMappings now l) :=
  List.Nodup.sublist ((List.filter_sublist l).map UrlMapping.shortcode) h

theorem codesNodup_incrementAccess (code : String) (l : List UrlMapping)
    (h : codesNodup l) : codesNodup (incrementAccess code l) := by
  rw [codesNodup, incrementAccess_map_shortcode]
  exact h

theorem codesNodup_finishCreate (baseUrl : String) (now : Int)
    (request : ShortenUrlRequest) (c : String) (l : List UrlMapping)
    (hn : codesNodup l)
    (hfresh : l.any (fun m => m.shortcode == c) = false) :
    codesNodup (finishCreate baseUrl now request c l).2 := by
  rw [finishCreate]
  dsimp only
  rw [codesNodup, List.map_append]
  rw [List.nodup_append]
  refine ⟨hn, by simp, ?_⟩
  intro a ha hb
  simp only [List.map_cons, List.map_nil, List.mem_singleton] at hb
  obtain ⟨m, hm, rfl⟩ := List.mem_map.mp ha
  have hne := List.any_eq_false.mp hfresh m hm
  rw [hb] at hne
  simp at hne

theorem codesNodup_shortenUrl (parse : String → Bool) (gens : List String)
    (baseUrl : String) (now : Int) (request : ShortenUrlRequest)
    (store : List UrlMapping) (h : codesNodup store) :
    codesNodup (shortenUrl parse gens baseUrl now request store).2 := by
  have hclean := codesNodup_clean now store h
  rw [shortenUrl]
  split
  · exact h
  · split
    · split
      · exact hclean
      · split
        · exact hclean
        · rename_i htaken
          exact codesNodup_finishCreate _ _ _ _ _ hclean
            (Bool.eq_false_iff.mpr htaken)
    · split
      · exact hclean
      · rename_i hpick
        exact codesNodup_finishCreate _ _ _ _ _ hclean
          (pickFresh_not_taken _ _ _ hpick)

theorem codesNodup_resolve (now : Int) (code : String) (store : List UrlMapping)
    (h : codesNodup store) : codesNodup (resolveShortcode now code store).2 := by
  have hclean := codesNodup_clean now store h
  rw [resolveShortcode]
  split
  · exact hclean
  · split
    · exact hclean
    · exact codesNodup_incrementAccess _ _ hclean

theorem codesNodup_delete (code : String) (store : List UrlMapping)
    (h : codesNodup store) :
    codesNodup (deleteMappingByShortcode code store).2 := by
  rw [deleteMappingByShortcode]
  split
  · exact h
  · exact List.Nodup.sublist ((List.filter_sublist store).map UrlMapping.shortcode) h

theorem reachable_codesNodup (store : List UrlMapping) (h : Reachable store) :
    codesNodup store := by
  induction h with
  | empty => simp [codesNodup]
  | create parse gens baseUrl now request s _ ih =>
      exact codesNodup_shortenUrl parse gens baseUrl now request s ih
  | resolve now code s _ ih => exact codesNodup_resolve now code s ih
  | listAll now s _ ih => exact codesNodup_clean now s ih
  | remove code s _ ih => exact codesNodup_delete code s ih

theorem nodup_filter_count (code : String) (l : List UrlMapping)
    (h : (l.map UrlMapping.shortcode).Nodup) :
    (l.filter (fun m => m.shortcode == code)).length ≤ 1 := by
  induction l with
  | nil => simp
  | cons a rest ih =>
      rw [List.map_cons, List.nodup_cons] at h
      by_cases ha : (a.shortcode == code) = true
      · rw [List.filter_cons_of_pos (p := fun (m : UrlMapping) => m.shortcode == code) ha]
        have hrest : rest.filter (fun m => m.shortcode == code) = [] := by
          rw [List.filter_eq_nil_iff]
          intro x hx hpx
          apply h.1
          have hxc : x.shortcode = code := by simpa using hpx
          have hac : a.shortcode = code := by simpa using ha
          rw [List.mem_map]
          exact ⟨x, hx, by rw [hxc, hac]⟩
        simp [hrest]
      · rw [List.filter_cons_of_neg (p := fun (m : UrlMapping) => m.shortcode == code)
          (by simpa using ha)]
        exact ih h.2

/-- C6: every state of the store reachable from the empty collection by any
sequence of create, resolve, list and delete operations has at most one live
(non-expired) mapping per shortcode; the reachability induction shows every
operation preserves this. -/
theorem at_most_one_live_per_shortcode (store : List UrlMapping)
    (h : Reachable store) (now : Int) (code : String) :
    ((cleanExpiredMappings now store).filter
      (fun m => m.shortcode == code)).length ≤ 1 :=
  nodup_filter_count code (cleanExpiredMappings now store)
    (codesNodup_clean now store (reachable_codesNodup store h))

theorem at_most_one_live_per_shortcode_witness :
    ((cleanExpiredMappings 0
      ((shortenUrl (fun _ => true) ["abc123"] "http://h" 0
        { originalUrl := "https://e.com", customShortcode := none,
          validityMinutes := some 30 } []).2)).filter
      (fun m => m.shortcode == "abc123")).length ≤ 1 :=
  at_most_one_live_per_shortcode _
    (Reachable.create (fun _ => true) ["abc123"] "http://h" 0
      { originalUrl := "https://e.com", customShortcode := none,
        validityMinutes := some 30 } [] Reachable.empty) 0 "abc123"

theorem accessCountMono_of_subset (s s' : List UrlMapping)
    (h : ∀ m ∈ s', m ∈ s) : accessCountMono s s' :=
  fun m' hm' => Or.inr ⟨m', h m' hm', preservesRecord_refl m'⟩

theorem accessCountMono_resolve (now : Int) (code : String)
    (s : List UrlMapping) : accessCountMono s (resolveShortcode now code s).2 := by
  rw [resolveShortcode]
  split
  · exact accessCountMono_of_subset _ _ (fun _ h => mem_of_mem_clean _ _ _ h)
  · split
    · exact accessCountMono_of_subset _ _ (fun _ h => mem_of_mem_clean _ _ _ h)
    · intro m' hm'
      obtain ⟨mm, hmm, hp⟩ := incrementAccess_preserves _ _ m' hm'
      exact Or.inr ⟨mm, mem_of_mem_clean _ _ _ hmm, hp⟩

theorem accessCountMono_delete (code : String) (s : List UrlMapping) :
    accessCountMono s (deleteMappingByShortcode code s).2 := by
  rw [deleteMappingByShortcode]
  split
  · exact accessCountMono_of_subset _ _ (fun _ h => h)
  · exact accessCountMono_of_subset _ _ (fun m' h => (List.mem_filter.mp h).1)

theorem accessCountMono_list (now : Int) (s : List UrlMapping) :
    accessCountMono s (getAllMappings now s).2 :=
  accessCountMono_of_subset _ _ (fun _ h => mem_of_mem_clean _ _ _ h)

theorem accessCountMono_finishCreate (baseUrl : String) (now : Int)
    (request : ShortenUrlRequest) (c : String) (s : List UrlMapping) :
    accessCountMono s (finishCreate baseUrl now request c
      (cleanExpiredMappings now s)).2 := by
  intro m' hm'
  rw [finishCreate] at hm'
  dsimp only at hm'
  rcases List.mem_append.mp hm' with h1 | h2
  · exact Or.inr ⟨m', mem_of_mem_clean _ _ _ h1, preservesRecord_refl m'⟩
  · rw [List.mem_singleton] at h2
    subst h2
    exact Or.inl rfl

theorem accessCountMono_create (parse : String → Bool) (gens : List String)
    (baseUrl : String) (now : Int) (request : ShortenUrlRequest)
    (s : List UrlMapping) :
    accessCountMono s (shortenUrl parse gens baseUrl now request s).2 := by
  have hsub : accessCountMono s (cleanExpiredMappings now s) :=
    accessCountMono_of_subset _ _ (fun _ h => mem_of_mem_clean _ _ _ h)
  rw [shortenUrl]
  split
  · exact accessCountMono_of_subset _ _ (fun _ h => h)
  · split
    · split
      · exact hsub
      · split
        · exact hsub
        · exact accessCountMono_finishCreate baseUrl now request _ s
    · split
      · exact hsub
      · exact accessCountMono_finishCreate baseUrl now request _ s

/-- C9: a successful resolve splits the swept store around the first record
carrying the shortcode; exactly that record gets `accessCount + 1` in the
persisted result while its other four fields and every other record are kept
verbatim; moreover no operation ever lowers a record's `accessCount`: each
output record of resolve, delete, list or create is a fresh record with count
0 or preserves an input record with a count at least as large. -/
theorem resolve_increments_only_access_count (now : Int) (code : String)
    (store : List UrlMapping) (url : String)
    (h : (resolveShortcode now code store).1 = some url) :
    (∃ before m after,
      cleanExpiredMappings now store = before ++ m :: after ∧
      (∀ x ∈ before, (x.shortcode == code) = false) ∧
      m.shortcode = code ∧ url = m.originalUrl ∧
      (resolveShortcode now code store).2 =
        before ++ { m with accessCount := m.accessCount + 1 } :: after) ∧
    (∀ t c s, accessCountMono s (resolveShortcode t c s).2) ∧
    (∀ c s, accessCountMono s (deleteMappingByShortcode c s).2) ∧
    (∀ t s, accessCountMono s (getAllMappings t s).2) ∧
    (∀ p g b t r s, accessCountMono s (shortenUrl p g b t r s).2) := by
  refine ⟨?_, accessCountMono_resolve, accessCountMono_delete,
    accessCountMono_list, accessCountMono_create⟩
  cases hf : (cleanExpiredMappings now store).find?
      (fun m => m.shortcode == code) with
  | none =>
      have hred : resolveShortcode now code store =
          (none, cleanExpiredMappings now store) := by
        rw [resolveShortcode, hf]
      rw [hred] at h
      simp at h
  | some mapping =>
      have hred : resolveShortcode now code store =
          if mapping.expiresAt ≤ now then (none, cleanExpiredMappings now store)
          else (some mapping.originalUrl,
                incrementAccess code (cleanExpiredMappings now store)) := by
        rw [resolveShortcode, hf]
      by_cases hexp : mapping.expiresAt ≤ now
      · rw [hred, if_pos hexp] at h
        simp at h
      · rw [hred, if_neg hexp] at h
        have hurl : url = mapping.originalUrl := (Option.some.inj h).symm
        obtain ⟨before, after, hsplit, hbef, hpm⟩ :=
          find?_decomp _ _ _ hf
        refine ⟨before, mapping, after, hsplit, hbef, by simpa using hpm,
          hurl, ?_⟩
        have h2 : (resolveShortcode now code store).2 =
            incrementAccess code (cleanExpiredMappings now store) := by
          rw [hred, if_neg hexp]
        rw [h2, hsplit]
        exact incrementAccess_append code before mapping after hbef hpm

theorem resolve_increments_only_access_count_witness :
    (∃ before m after,
      cleanExpiredMappings 0
        [{ shortcode := "abc", originalUrl := "https://e.com", expiresAt := 10,
           createdAt := 0, accessCount := 4 }] = before ++ m :: after ∧
      (∀ x ∈ before, (x.shortcode == "abc") = false) ∧
      m.shortcode = "abc" ∧ "https://e.com" = m.originalUrl ∧
      (resolveShortcode 0 "abc"
        [{ shortcode := "abc", originalUrl := "https://e.com", expiresAt := 10,
           createdAt := 0, accessCount := 4 }]).2 =
        before ++ { m with accessCount := m.accessCount + 1 } :: after) ∧
    (∀ t c s, accessCountMono s (resolveShortcode t c s).2) ∧
    (∀ c s, accessCountMono s (deleteMappingByShortcode c s).2) ∧
    (∀ t s, accessCountMono s (getAllMappings t s).2) ∧
    (∀ p g b t r s, accessCountMono s (shortenUrl p g b t r s).2) :=
  resolve_increments_only_access_count 0 "abc"
    [{ shortcode := "abc", originalUrl := "https://e.com", expiresAt := 10,
       createdAt := 0, accessCount := 4 }] "https://e.com" (by rfl)
